import Mathlib

/-!
Shallow embedding of `src/CODE/CycloMeter.py`: the Enigma-style encryption
engine (`encrypt_letter`), the cyclometer analysis (`get_cycle_structure`)
and the UI driver's configuration check (`display_cycles`).

Letters are `Char`s (Python strings of length one); positions are `Nat`
(Python non-negative ints); index arithmetic that can go negative in Python
is done in `Int`, whose `%` agrees with Python `%` for a positive modulus.
Python dict lookups and `str.index` are fallible, so `encrypt_letter`
returns an `Option`; the unbounded `while True` loop of
`get_cycle_structure` is modelled with a fuel parameter (`none` = the loop
did not finish within the given fuel).
-/

/-- `string.ascii_uppercase`. -/
def asciiUppercase : List Char := "ABCDEFGHIJKLMNOPQRSTUVWXYZ".toList

/-- The rotor identifiers appearing in the embedded catalog. -/
inductive RotorId where
  | I
  | II
  | III
deriving DecidableEq, Repr, Fintype

/-- The reflector identifiers appearing in the embedded catalog. -/
inductive ReflectorId where
  | A
  | B
deriving DecidableEq, Repr, Fintype

/-- `rotor_wiring` from CycloMeter.py. -/
def rotor_wiring : RotorId → List Char
  | .I => "EKMFLGDQVZNTOWYHXUSPAIBRCJ".toList
  | .II => "AJDKSIRUXBLHWTMCQGZNPYFVOE".toList
  | .III => "BDFHJLCPRTXVZNYEIWGAKMUSQO".toList

/-- `rotor_notch` from CycloMeter.py. -/
def rotor_notch : RotorId → Char
  | .I => 'Q'
  | .II => 'E'
  | .III => 'V'

/-- `reflector_wiring` from CycloMeter.py: each dict as its association list. -/
def reflector_wiring : ReflectorId → List (Char × Char)
  | .A =>
    [('A','E'),('E','A'),('B','J'),('J','B'),('C','M'),('M','C'),('D','Z'),('Z','D'),
     ('F','L'),('L','F'),('G','Y'),('Y','G'),('H','X'),('X','H'),('I','V'),('V','I'),
     ('K','W'),('W','K'),('N','O'),('O','N'),('P','Q'),('Q','P'),('R','U'),('U','R'),
     ('S','T'),('T','S')]
  | .B =>
    [('A','Y'),('Y','A'),('B','R'),('R','B'),('C','U'),('U','C'),('D','H'),('H','D'),
     ('E','Q'),('Q','E'),('F','S'),('S','F'),('G','L'),('L','G'),('I','P'),('P','I'),
     ('J','X'),('X','J'),('K','N'),('N','K'),('M','O'),('O','M'),('T','Z'),('Z','T'),
     ('V','W'),('W','V')]

/-- `plugboard_map = {ch: ch for ch in string.ascii_uppercase}`. -/
def plugboard_map : List (Char × Char) := asciiUppercase.map (fun ch => (ch, ch))

/-- `char_to_index` from `encrypt_letter`: `ord(ch) - ord('A')` (may be negative). -/
def char_to_index (ch : Char) : Int := (ch.toNat : Int) - ('A'.toNat : Int)

/-- `index_to_char` from `encrypt_letter`: `chr(i + ord('A'))`. -/
def index_to_char (i : Int) : Char := Char.ofNat (i + ('A'.toNat : Int)).toNat

/-- `encrypt_letter` from CycloMeter.py.  Dict lookups, string indexing and
`str.index` are fallible (`KeyError`/`IndexError`/`ValueError`), so each such
operation is an `Option.bind` (resp. a `match`); the success value is the
pair (cipher letter, new rotor positions) that the Python function returns. -/
def encrypt_letter (letter : Char) (rotor_order : RotorId × RotorId × RotorId)
    (rotor_positions : Nat × Nat × Nat) (reflector_type : ReflectorId) :
    Option (Char × (Nat × Nat × Nat)) :=
  let left_rotor := rotor_order.1
  let mid_rotor := rotor_order.2.1
  let right_rotor := rotor_order.2.2
  -- Step rotors (Enigma stepping rules); both notch tests read the pre-step values
  match asciiUppercase.get? rotor_positions.2.1, asciiUppercase.get? rotor_positions.2.2 with
  | some midChar, some rightChar =>
    let pos_left := if midChar = rotor_notch mid_rotor
      then (rotor_positions.1 + 1) % 26 else rotor_positions.1
    let pos_mid := if rightChar = rotor_notch right_rotor ∨ midChar = rotor_notch mid_rotor
      then (rotor_positions.2.1 + 1) % 26 else rotor_positions.2.1
    let pos_right := (rotor_positions.2.2 + 1) % 26
    -- Plugboard in
    (plugboard_map.lookup letter).bind fun c =>
    -- Forward through rotors (Right -> Middle -> Left)
    ((rotor_wiring right_rotor).get?
        (((char_to_index c + (pos_right : Int)) % 26).toNat)).bind fun w1 =>
    let o1 := (char_to_index w1 - (pos_right : Int)) % 26
    ((rotor_wiring mid_rotor).get?
        (((char_to_index (index_to_char o1) + (pos_mid : Int)) % 26).toNat)).bind fun w2 =>
    let o2 := (char_to_index w2 - (pos_mid : Int)) % 26
    ((rotor_wiring left_rotor).get?
        (((char_to_index (index_to_char o2) + (pos_left : Int)) % 26).toNat)).bind fun w3 =>
    let o3 := (char_to_index w3 - (pos_left : Int)) % 26
    -- Reflector
    ((reflector_wiring reflector_type).lookup (index_to_char o3)).bind fun cRefl =>
    -- Back through rotors (Left -> Middle -> Right), `str.index` on the wiring
    ((rotor_wiring left_rotor).indexOf?
        (index_to_char ((char_to_index cRefl + (pos_left : Int)) % 26))).bind fun j1 =>
    let o4 := ((j1 : Int) - (pos_left : Int)) % 26
    (asciiUppercase.get? o4.toNat).bind fun cMid =>
    ((rotor_wiring mid_rotor).indexOf?
        (index_to_char ((char_to_index cMid + (pos_mid : Int)) % 26))).bind fun j2 =>
    let o5 := ((j2 : Int) - (pos_mid : Int)) % 26
    (asciiUppercase.get? o5.toNat).bind fun cRight =>
    ((rotor_wiring right_rotor).indexOf?
        (index_to_char ((char_to_index cRight + (pos_right : Int)) % 26))).bind fun j3 =>
    let o6 := ((j3 : Int) - (pos_right : Int)) % 26
    -- Plugboard out
    (asciiUppercase.get? o6.toNat).bind fun cOut =>
    (plugboard_map.lookup cOut).bind fun cFinal =>
    some (cFinal, (pos_left, pos_mid, pos_right))
  | _, _ => none

/-- One iteration block of the `while True` loop in `get_cycle_structure`:
the four key presses (letter, dummy `'A'`, dummy `'A'`, letter), the append
to the current cycle, the `seen.add`, and either closing the loop or
continuing with the fourth press's output letter.  `fuel` bounds the number
of iterations of the unbounded Python loop (`none` = not finished). -/
def cycleLoop (fuel : Nat) (rotor_order : RotorId × RotorId × RotorId)
    (start_positions : Nat × Nat × Nat) (reflector_type : ReflectorId)
    (start_letter current_letter : Char) (cycle : List Char) (seen : Finset Char) :
    Option (List Char × Finset Char) :=
  match fuel with
  | 0 => none
  | fuel + 1 =>
    -- Step 1: press the letter, always from the original start_positions
    (encrypt_letter current_letter rotor_order start_positions reflector_type).bind fun r1 =>
    -- Steps 2 & 3: press two dummy letters to replicate the Enigma stepping
    let dummy := 'A'
    (encrypt_letter dummy rotor_order r1.2 reflector_type).bind fun r2 =>
    (encrypt_letter dummy rotor_order r2.2 reflector_type).bind fun r3 =>
    -- Step 4: press the same letter again; its position state is discarded
    (encrypt_letter current_letter rotor_order r3.2 reflector_type).bind fun r4 =>
    let output_letter := r4.1
    let cycle2 := cycle ++ [current_letter]
    let seen2 := insert current_letter seen
    if output_letter = start_letter then
      some (cycle2 ++ [output_letter], seen2)
    else
      cycleLoop fuel rotor_order start_positions reflector_type
        start_letter output_letter cycle2 seen2

/-- The `for letter in string.ascii_uppercase` loop of `get_cycle_structure`. -/
def get_cycle_structure_aux (fuel : Nat) (rotor_order : RotorId × RotorId × RotorId)
    (start_positions : Nat × Nat × Nat) (reflector_type : ReflectorId) :
    List Char → List (List Char) → Finset Char → Option (List (List Char))
  | [], cycles, _ => some cycles
  | letter :: rest, cycles, seen =>
    if letter ∈ seen then
      get_cycle_structure_aux fuel rotor_order start_positions reflector_type rest cycles seen
    else
      (cycleLoop fuel rotor_order start_positions reflector_type letter letter [] seen).bind
        fun r =>
      get_cycle_structure_aux fuel rotor_order start_positions reflector_type
        rest (cycles ++ [r.1]) r.2

/-- `get_cycle_structure` from CycloMeter.py, with a fuel bound on its
unbounded inner `while True` loop. -/
def get_cycle_structure (fuel : Nat) (rotor_order : RotorId × RotorId × RotorId)
    (start_positions : Nat × Nat × Nat) (reflector_type : ReflectorId) :
    Option (List (List Char)) :=
  get_cycle_structure_aux fuel rotor_order start_positions reflector_type
    asciiUppercase [] ∅

/-- `display_cycles` from CycloMeter.py, modelled as returning the data it
prints: `none` models the early-return error message for a duplicated rotor
selection (`len({left, middle, right}) < 3`); otherwise the computed cycle
list sorted by first letter is returned. -/
def display_cycles (left_rotor middle_rotor right_rotor : RotorId)
    (left_pos middle_pos right_pos : Nat) (reflector : ReflectorId) (fuel : Nat) :
    Option (List (List Char)) :=
  if ({left_rotor, middle_rotor, right_rotor} : Finset RotorId).card < 3 then
    none
  else
    (get_cycle_structure fuel (left_rotor, middle_rotor, right_rotor)
        (left_pos, middle_pos, right_pos) reflector).map
      (fun cycles => cycles.mergeSort (fun a b => a.headD 'A' ≤ b.headD 'A'))

/-- The indicator mapping implicit in the body of `get_cycle_structure`'s
loop: four presses always starting from the fixed `start_positions`, the
fourth press's output letter being the image; the final position state is
discarded. -/
def indicator_mapping (rotor_order : RotorId × RotorId × RotorId)
    (start_positions : Nat × Nat × Nat) (reflector_type : ReflectorId)
    (letter : Char) : Option Char :=
  (encrypt_letter letter rotor_order start_positions reflector_type).bind fun r1 =>
  (encrypt_letter 'A' rotor_order r1.2 reflector_type).bind fun r2 =>
  (encrypt_letter 'A' rotor_order r2.2 reflector_type).bind fun r3 =>
  (encrypt_letter letter rotor_order r3.2 reflector_type).bind fun r4 =>
  some r4.1

/-! ## Total counterparts of the pieces of `encrypt_letter`

The following functions restate, as total functions on integers, the three
inline computations of `encrypt_letter`: the stepping block, the
forward/backward rotor stages, and the reflector lookup.  The theorem
`encrypt_letter_eq` below proves that on valid inputs `encrypt_letter`
computes exactly their composition. -/

/-- The stepping block of `encrypt_letter` (all tests on pre-step values). -/
def stepPositions (mid_rotor right_rotor : RotorId) (p : Nat × Nat × Nat) :
    Nat × Nat × Nat :=
  ((if index_to_char (p.2.1 : Int) = rotor_notch mid_rotor then (p.1 + 1) % 26 else p.1),
   (if index_to_char (p.2.2 : Int) = rotor_notch right_rotor ∨
       index_to_char (p.2.1 : Int) = rotor_notch mid_rotor
     then (p.2.1 + 1) % 26 else p.2.1),
   (p.2.2 + 1) % 26)

/-- A forward rotor stage of `encrypt_letter`:
`(char_to_index(wiring_str[(in_idx + offset) % 26]) - offset) % 26`. -/
def forwardSub (r : RotorId) (offset : Nat) (x : Int) : Int :=
  (char_to_index ((rotor_wiring r).getD ((x + (offset : Int)) % 26).toNat 'A')
    - (offset : Int)) % 26

/-- A backward rotor stage of `encrypt_letter`:
`(wiring_str.index(chr(((in_idx + offset) % 26) + ord('A'))) - offset) % 26`. -/
def backwardSub (r : RotorId) (offset : Nat) (x : Int) : Int :=
  (((rotor_wiring r).indexOf (index_to_char ((x + (offset : Int)) % 26)) : Int)
    - (offset : Int)) % 26

/-- The reflector stage of `encrypt_letter`, on indices. -/
def reflectSub (t : ReflectorId) (x : Int) : Int :=
  char_to_index (((reflector_wiring t).lookup (index_to_char x)).getD 'A')

/-- The whole substitution performed by `encrypt_letter` at the (already
advanced) positions `p`: plugboard is the identity on the alphabet, then
forward right-middle-left, reflector, backward left-middle-right. -/
def enigmaSub (rotor_order : RotorId × RotorId × RotorId) (p : Nat × Nat × Nat)
    (t : ReflectorId) (x : Int) : Int :=
  backwardSub rotor_order.2.2 p.2.2 (backwardSub rotor_order.2.1 p.2.1
    (backwardSub rotor_order.1 p.1 (reflectSub t
      (forwardSub rotor_order.1 p.1 (forwardSub rotor_order.2.1 p.2.1
        (forwardSub rotor_order.2.2 p.2.2 x))))))

/-- The total indicator-mapping function: the substitution of the fourth
press, whose stepped positions are the start positions stepped four times. -/
def indicatorFun (rotor_order : RotorId × RotorId × RotorId)
    (start_positions : Nat × Nat × Nat) (t : ReflectorId) (c : Char) : Char :=
  index_to_char (enigmaSub rotor_order
    (stepPositions rotor_order.2.1 rotor_order.2.2
      (stepPositions rotor_order.2.1 rotor_order.2.2
        (stepPositions rotor_order.2.1 rotor_order.2.2
          (stepPositions rotor_order.2.1 rotor_order.2.2 start_positions))))
    t (char_to_index c))

/-- Positions are a triple of ints in `[0, 26)`. -/
def validPositions (p : Nat × Nat × Nat) : Prop :=
  p.1 < 26 ∧ p.2.1 < 26 ∧ p.2.2 < 26

instance (p : Nat × Nat × Nat) : Decidable (validPositions p) := by
  unfold validPositions; infer_instance

/-- A rotor order with three pairwise distinct rotor ids. -/
def distinctRotors (ro : RotorId × RotorId × RotorId) : Prop :=
  ro.1 ≠ ro.2.1 ∧ ro.1 ≠ ro.2.2 ∧ ro.2.1 ≠ ro.2.2

instance (ro : RotorId × RotorId × RotorId) : Decidable (distinctRotors ro) := by
  unfold distinctRotors; infer_instance

/-! ## Helper lemmas -/

/-- `List.indexOf?` finds a present element, returning `List.indexOf`. -/
theorem indexOf?_eq_some_of_mem {α : Type} [DecidableEq α] {c : α} {l : List α}
    (h : c ∈ l) : l.indexOf? c = some (l.indexOf c) := by
  cases hio : l.indexOf? c with
  | none =>
    rw [List.indexOf?_eq_none_iff] at hio
    have := hio c h
    simp at this
  | some j =>
    rw [List.indexOf_eq_indexOf?, hio]

/-- Looking a key up in an identity association list. -/
theorem lookup_map_self {α : Type} [DecidableEq α] (l : List α) (c : α) :
    (l.map fun ch => (ch, ch)).lookup c = if c ∈ l then some c else none := by
  induction l with
  | nil => simp
  | cons a l ih =>
    by_cases h : c = a
    · subst h
      simp [List.lookup]
    · have hb : (c == a) = false := by simp [h]
      simp only [List.map_cons, List.lookup, hb, List.mem_cons, ih]
      simp [h]

/-- A `some` option equals `some` of its `getD`. -/
theorem eq_some_getD {α : Type} {o : Option α} (h : o.isSome = true) (d : α) :
    o = some (o.getD d) := by
  cases o with
  | none => simp at h
  | some a => rfl

/-- Transfer a property decided on `Fin 26` to integers in `[0, 26)`. -/
theorem int_of_fin_cases {P : Int → Prop} (h : ∀ k : Fin 26, P ((k.val : Int)))
    (x : Int) (h0 : 0 ≤ x) (h1 : x < 26) : P x := by
  have hk := h ⟨x.toNat, by omega⟩
  simpa [Int.toNat_of_nonneg h0] using hk

theorem ascii_get? : ∀ n < 26, asciiUppercase.get? n = some (index_to_char (n : Int)) := by
  decide

theorem ascii_nodup : asciiUppercase.Nodup := by decide

theorem index_to_char_char_to_index : ∀ c ∈ asciiUppercase,
    index_to_char (char_to_index c) = c := by decide

theorem char_to_index_bounds : ∀ c ∈ asciiUppercase,
    0 ≤ char_to_index c ∧ char_to_index c < 26 := by decide

theorem char_to_index_index_to_char (x : Int) (h0 : 0 ≤ x) (h1 : x < 26) :
    char_to_index (index_to_char x) = x :=
  int_of_fin_cases (P := fun z => char_to_index (index_to_char z) = z) (by decide) x h0 h1

theorem index_to_char_mem_ascii (x : Int) (h0 : 0 ≤ x) (h1 : x < 26) :
    index_to_char x ∈ asciiUppercase :=
  int_of_fin_cases (P := fun z => index_to_char z ∈ asciiUppercase) (by decide) x h0 h1

theorem rotor_wiring_length : ∀ r, (rotor_wiring r).length = 26 := by decide

theorem rotor_wiring_nodup : ∀ r, (rotor_wiring r).Nodup := by decide

theorem rotor_wiring_mem_ascii : ∀ r, ∀ c ∈ rotor_wiring r, c ∈ asciiUppercase := by decide

theorem ascii_mem_rotor_wiring : ∀ r, ∀ c ∈ asciiUppercase, c ∈ rotor_wiring r := by decide

theorem reflector_lookup_isSome : ∀ t, ∀ c ∈ asciiUppercase,
    ((reflector_wiring t).lookup c).isSome = true := by decide

theorem reflectSub_fin : ∀ t, ∀ k : Fin 26,
    0 ≤ reflectSub t ((k.val : Int)) ∧ reflectSub t ((k.val : Int)) < 26 := by decide

theorem reflectSub_bounds (t : ReflectorId) (x : Int) (h0 : 0 ≤ x) (h1 : x < 26) :
    0 ≤ reflectSub t x ∧ reflectSub t x < 26 :=
  int_of_fin_cases (P := fun z => 0 ≤ reflectSub t z ∧ reflectSub t z < 26)
    (reflectSub_fin t) x h0 h1

theorem reflectSub_invol_fin : ∀ t, ∀ k : Fin 26,
    reflectSub t (reflectSub t ((k.val : Int))) = ((k.val : Int)) := by decide

theorem reflectSub_invol (t : ReflectorId) (x : Int) (h0 : 0 ≤ x) (h1 : x < 26) :
    reflectSub t (reflectSub t x) = x :=
  int_of_fin_cases (P := fun z => reflectSub t (reflectSub t z) = z)
    (reflectSub_invol_fin t) x h0 h1

theorem reflectSub_ne_fin : ∀ t, ∀ k : Fin 26,
    reflectSub t ((k.val : Int)) ≠ ((k.val : Int)) := by decide

theorem reflectSub_ne (t : ReflectorId) (x : Int) (h0 : 0 ≤ x) (h1 : x < 26) :
    reflectSub t x ≠ x :=
  int_of_fin_cases (P := fun z => reflectSub t z ≠ z) (reflectSub_ne_fin t) x h0 h1

theorem forwardSub_bounds (r : RotorId) (off : Nat) (x : Int) :
    0 ≤ forwardSub r off x ∧ forwardSub r off x < 26 := by
  unfold forwardSub
  omega

theorem backwardSub_bounds (r : RotorId) (off : Nat) (x : Int) :
    0 ≤ backwardSub r off x ∧ backwardSub r off x < 26 := by
  unfold backwardSub
  omega

/-- The backward rotor stage inverts the forward rotor stage. -/
theorem backwardSub_forwardSub (r : RotorId) (off : Nat) (x : Int)
    (h0 : 0 ≤ x) (h1 : x < 26) : backwardSub r off (forwardSub r off x) = x := by
  have hlen := rotor_wiring_length r
  have hidx : ((x + (off : Int)) % 26).toNat < (rotor_wiring r).length := by
    rw [hlen]; omega
  unfold backwardSub forwardSub
  set w := (rotor_wiring r).getD ((x + (off : Int)) % 26).toNat 'A' with hw
  have hwget : w = (rotor_wiring r).get ⟨((x + (off : Int)) % 26).toNat, hidx⟩ := by
    rw [hw, List.getD_eq_get _ _ hidx]
  have hwmem : w ∈ asciiUppercase := by
    refine rotor_wiring_mem_ascii r w ?_
    rw [hwget]; exact List.get_mem _ _ _
  have hcw := char_to_index_bounds w hwmem
  have hsimp : ((char_to_index w - (off : Int)) % 26 + (off : Int)) % 26 = char_to_index w := by
    omega
  rw [hsimp, index_to_char_char_to_index w hwmem, hwget,
    List.get_indexOf (rotor_wiring_nodup r)]
  simp only [Fin.val_mk]
  omega

/-- The forward rotor stage inverts the backward rotor stage. -/
theorem forwardSub_backwardSub (r : RotorId) (off : Nat) (x : Int)
    (h0 : 0 ≤ x) (h1 : x < 26) : forwardSub r off (backwardSub r off x) = x := by
  have hlen := rotor_wiring_length r
  unfold forwardSub backwardSub
  set t := index_to_char ((x + (off : Int)) % 26) with ht
  have htmem : t ∈ rotor_wiring r :=
    ascii_mem_rotor_wiring r t (index_to_char_mem_ascii _ (by omega) (by omega))
  have hjlt : (rotor_wiring r).indexOf t < (rotor_wiring r).length :=
    List.indexOf_lt_length.mpr htmem
  have hj26 : (rotor_wiring r).indexOf t < 26 := by omega
  have harg : (((((rotor_wiring r).indexOf t : Int) - (off : Int)) % 26 + (off : Int)) % 26).toNat
      = (rotor_wiring r).indexOf t := by omega
  rw [harg, List.getD_eq_get _ _ hjlt, List.indexOf_get hjlt, ht,
    char_to_index_index_to_char _ (by omega) (by omega)]
  omega
theorem enigmaSub_bounds (ro : RotorId × RotorId × RotorId) (p : Nat × Nat × Nat)
    (t : ReflectorId) (x : Int) : 0 ≤ enigmaSub ro p t x ∧ enigmaSub ro p t x < 26 := by
  unfold enigmaSub
  exact backwardSub_bounds _ _ _

/-- The substitution performed at one fixed position snapshot is an involution. -/
theorem enigmaSub_invol (ro : RotorId × RotorId × RotorId) (p : Nat × Nat × Nat)
    (t : ReflectorId) (x : Int) (h0 : 0 ≤ x) (h1 : x < 26) :
    enigmaSub ro p t (enigmaSub ro p t x) = x := by
  unfold enigmaSub
  set f1 := forwardSub ro.2.2 p.2.2 x with hf1d
  set f2 := forwardSub ro.2.1 p.2.1 f1 with hf2d
  set f3 := forwardSub ro.1 p.1 f2 with hf3d
  set rf := reflectSub t f3 with hrfd
  set g1 := backwardSub ro.1 p.1 rf with hg1d
  set g2 := backwardSub ro.2.1 p.2.1 g1 with hg2d
  set g3 := backwardSub ro.2.2 p.2.2 g2 with hg3d
  have hf2b := forwardSub_bounds ro.2.1 p.2.1 f1
  have hf3b := forwardSub_bounds ro.1 p.1 f2
  have hg1b := backwardSub_bounds ro.1 p.1 rf
  have hg2b := backwardSub_bounds ro.2.1 p.2.1 g1
  rw [hg3d, forwardSub_backwardSub ro.2.2 p.2.2 g2 hg2b.1 hg2b.2,
    hg2d, forwardSub_backwardSub ro.2.1 p.2.1 g1 hg1b.1 hg1b.2,
    hg1d, forwardSub_backwardSub ro.1 p.1 rf (reflectSub_bounds t f3 hf3b.1 hf3b.2).1
      (reflectSub_bounds t f3 hf3b.1 hf3b.2).2,
    hrfd, reflectSub_invol t f3 hf3b.1 hf3b.2,
    hf3d, backwardSub_forwardSub ro.1 p.1 f2 hf2b.1 hf2b.2,
    hf2d, backwardSub_forwardSub ro.2.1 p.2.1 f1 (forwardSub_bounds ro.2.2 p.2.2 x).1
      (forwardSub_bounds ro.2.2 p.2.2 x).2,
    hf1d, backwardSub_forwardSub ro.2.2 p.2.2 x h0 h1]

/-- The substitution performed at one fixed position snapshot has no fixed point. -/
theorem enigmaSub_ne (ro : RotorId × RotorId × RotorId) (p : Nat × Nat × Nat)
    (t : ReflectorId) (x : Int) (h0 : 0 ≤ x) (h1 : x < 26) :
    enigmaSub ro p t x ≠ x := by
  intro heq
  unfold enigmaSub at heq
  set f1 := forwardSub ro.2.2 p.2.2 x with hf1d
  set f2 := forwardSub ro.2.1 p.2.1 f1 with hf2d
  set f3 := forwardSub ro.1 p.1 f2 with hf3d
  set rf := reflectSub t f3 with hrfd
  have hf3b := forwardSub_bounds ro.1 p.1 f2
  have hg1b := backwardSub_bounds ro.1 p.1 rf
  have hg2b := backwardSub_bounds ro.2.1 p.2.1 (backwardSub ro.1 p.1 rf)
  have happ := congrArg (fun z => forwardSub ro.1 p.1 (forwardSub ro.2.1 p.2.1
    (forwardSub ro.2.2 p.2.2 z))) heq
  simp only [] at happ
  rw [forwardSub_backwardSub ro.2.2 p.2.2 _ hg2b.1 hg2b.2,
    forwardSub_backwardSub ro.2.1 p.2.1 _ hg1b.1 hg1b.2,
    forwardSub_backwardSub ro.1 p.1 rf (reflectSub_bounds t f3 hf3b.1 hf3b.2).1
      (reflectSub_bounds t f3 hf3b.1 hf3b.2).2,
    ← hf1d, ← hf2d, ← hf3d] at happ
  exact reflectSub_ne t f3 hf3b.1 hf3b.2 (hrfd ▸ happ)


/-! ## Characterization of `encrypt_letter` on valid inputs -/

theorem get?_eq_getD_of_lt {l : List Char} {i : Nat} (h : i < l.length) :
    l.get? i = some (l.getD i 'A') := by
  rw [List.get?_eq_get h, List.getD_eq_get l 'A' h]

theorem wiring_get?_toNat (r : RotorId) (a : Int) :
    (rotor_wiring r).get? ((a % 26).toNat)
      = some ((rotor_wiring r).getD ((a % 26).toNat) 'A') := by
  apply get?_eq_getD_of_lt
  rw [rotor_wiring_length]
  omega

theorem ascii_get?_toNat (a : Int) :
    asciiUppercase.get? ((a % 26).toNat) = some (index_to_char (a % 26)) := by
  have h26 : (a % 26).toNat < 26 := by omega
  rw [ascii_get? _ h26, Int.toNat_of_nonneg (by omega : (0 : Int) ≤ a % 26)]

theorem char_to_index_index_to_char_emod (a : Int) :
    char_to_index (index_to_char (a % 26)) = a % 26 :=
  char_to_index_index_to_char _ (by omega) (by omega)

theorem reflector_lookup_emod (t : ReflectorId) (a : Int) :
    (reflector_wiring t).lookup (index_to_char (a % 26))
      = some (((reflector_wiring t).lookup (index_to_char (a % 26))).getD 'A') :=
  eq_some_getD (reflector_lookup_isSome t _
    (index_to_char_mem_ascii _ (by omega) (by omega))) 'A'

theorem indexOf?_wiring_emod (r : RotorId) (a : Int) :
    (rotor_wiring r).indexOf? (index_to_char (a % 26))
      = some ((rotor_wiring r).indexOf (index_to_char (a % 26))) :=
  indexOf?_eq_some_of_mem (ascii_mem_rotor_wiring r _
    (index_to_char_mem_ascii _ (by omega) (by omega)))

theorem plugboard_lookup_emod (a : Int) :
    plugboard_map.lookup (index_to_char (a % 26)) = some (index_to_char (a % 26)) := by
  unfold plugboard_map
  rw [lookup_map_self]
  exact if_pos (index_to_char_mem_ascii _ (by omega) (by omega))

/-- On an uppercase letter and in-range positions, `encrypt_letter` succeeds
and computes exactly the stepped positions and the `enigmaSub` substitution
at those stepped positions. -/
theorem encrypt_letter_eq (ro : RotorId × RotorId × RotorId) (p : Nat × Nat × Nat)
    (t : ReflectorId) (c : Char) (hc : c ∈ asciiUppercase) (hp : validPositions p) :
    encrypt_letter c ro p t =
      some (index_to_char (enigmaSub ro (stepPositions ro.2.1 ro.2.2 p) t (char_to_index c)),
        stepPositions ro.2.1 ro.2.2 p) := by
  obtain ⟨hp1, hp2, hp3⟩ := hp
  have hpl : plugboard_map.lookup c = some c := by
    unfold plugboard_map
    rw [lookup_map_self]
    exact if_pos hc
  unfold encrypt_letter
  rw [ascii_get? _ hp2, ascii_get? _ hp3]
  simp only [hpl, Option.some_bind, wiring_get?_toNat, ascii_get?_toNat,
    char_to_index_index_to_char_emod, indexOf?_wiring_emod, plugboard_lookup_emod]
  rw [reflector_lookup_emod]
  simp only [Option.some_bind]
  simp only [enigmaSub, forwardSub, backwardSub, reflectSub, stepPositions]

theorem stepPositions_valid (mr rr : RotorId) (p : Nat × Nat × Nat)
    (hp : validPositions p) : validPositions (stepPositions mr rr p) := by
  obtain ⟨h1, h2, h3⟩ := hp
  unfold stepPositions validPositions
  refine ⟨?_, ?_, ?_⟩ <;> dsimp only <;> (try split) <;> omega

/-- C1: one call to `encrypt_letter` advances the rotor positions exactly by
the stepping rules evaluated on the pre-step values: the left rotor advances
iff the middle rotor sits at its notch, the middle rotor advances iff the
right rotor sits at its notch or the middle rotor itself sits at its notch
(the double-stepping anomaly), and the right rotor always advances; all
additions are modulo 26. -/
theorem encrypt_letter_stepping (ro : RotorId × RotorId × RotorId)
    (p : Nat × Nat × Nat) (t : ReflectorId) (L : Char)
    (hL : L ∈ asciiUppercase) (hp : validPositions p)
    (C : Char) (p' : Nat × Nat × Nat)
    (h : encrypt_letter L ro p t = some (C, p')) :
    p' = ((if index_to_char (p.2.1 : Int) = rotor_notch ro.2.1
            then (p.1 + 1) % 26 else p.1),
          (if index_to_char (p.2.2 : Int) = rotor_notch ro.2.2 ∨
              index_to_char (p.2.1 : Int) = rotor_notch ro.2.1
            then (p.2.1 + 1) % 26 else p.2.1),
          (p.2.2 + 1) % 26) := by
  rw [encrypt_letter_eq ro p t L hL hp] at h
  simp only [Option.some.injEq, Prod.mk.injEq] at h
  rw [← h.2]
  rfl

/-- Witness for `encrypt_letter_stepping` at rotors (I, II, III),
positions (0, 0, 0), reflector A, letter 'A'. -/
theorem encrypt_letter_stepping_witness :
    ((0 : Nat), (0 : Nat), (1 : Nat)) =
      ((if index_to_char (((0 : Nat), (0 : Nat), (0 : Nat)).2.1 : Int)
            = rotor_notch (RotorId.I, RotorId.II, RotorId.III).2.1
          then (((0 : Nat), (0 : Nat), (0 : Nat)).1 + 1) % 26
          else ((0 : Nat), (0 : Nat), (0 : Nat)).1),
        (if index_to_char (((0 : Nat), (0 : Nat), (0 : Nat)).2.2 : Int)
            = rotor_notch (RotorId.I, RotorId.II, RotorId.III).2.2 ∨
            index_to_char (((0 : Nat), (0 : Nat), (0 : Nat)).2.1 : Int)
            = rotor_notch (RotorId.I, RotorId.II, RotorId.III).2.1
          then (((0 : Nat), (0 : Nat), (0 : Nat)).2.1 + 1) % 26
          else ((0 : Nat), (0 : Nat), (0 : Nat)).2.1),
        (((0 : Nat), (0 : Nat), (0 : Nat)).2.2 + 1) % 26) :=
  encrypt_letter_stepping (RotorId.I, RotorId.II, RotorId.III) (0, 0, 0)
    ReflectorId.A 'A' (by decide) (by decide) 'S' (0, 0, 1) (by decide)

/-- C2: for a fixed rotor order, pre-step positions and reflector,
re-encrypting the cipher letter from the same pre-step positions returns
the plain letter: the substitution of one position snapshot is self-inverse. -/
theorem encrypt_letter_reciprocal (ro : RotorId × RotorId × RotorId)
    (p : Nat × Nat × Nat) (t : ReflectorId) (L C : Char) (p' : Nat × Nat × Nat)
    (hro : distinctRotors ro) (hp : validPositions p) (hL : L ∈ asciiUppercase)
    (h : encrypt_letter L ro p t = some (C, p')) :
    ∃ q, encrypt_letter C ro p t = some (L, q) := by
  rw [encrypt_letter_eq ro p t L hL hp] at h
  simp only [Option.some.injEq, Prod.mk.injEq] at h
  obtain ⟨hC, -⟩ := h
  have hb := enigmaSub_bounds ro (stepPositions ro.2.1 ro.2.2 p) t (char_to_index L)
  have hCmem : C ∈ asciiUppercase := hC ▸ index_to_char_mem_ascii _ hb.1 hb.2
  have hLb := char_to_index_bounds L hL
  refine ⟨stepPositions ro.2.1 ro.2.2 p, ?_⟩
  rw [encrypt_letter_eq ro p t C hCmem hp]
  simp only [Option.some.injEq, Prod.mk.injEq]
  refine ⟨?_, trivial⟩
  rw [← hC, char_to_index_index_to_char _ hb.1 hb.2,
    enigmaSub_invol _ _ _ _ hLb.1 hLb.2, index_to_char_char_to_index L hL]

/-- Witness for `encrypt_letter_reciprocal`: at rotors (I, II, III),
positions (0, 0, 0), reflector B, 'A' encrypts to 'B', and 'B' encrypts
back to 'A' from the same pre-step positions. -/
theorem encrypt_letter_reciprocal_witness :
    ∃ q, encrypt_letter 'B' (RotorId.I, RotorId.II, RotorId.III) (0, 0, 0)
      ReflectorId.B = some ('A', q) :=
  encrypt_letter_reciprocal (RotorId.I, RotorId.II, RotorId.III) (0, 0, 0)
    ReflectorId.B 'A' 'B' (0, 0, 1) (by decide) (by decide) (by decide) (by decide)

/-- C9: the cipher letter returned by `encrypt_letter` is never the plain
letter itself (fixed-point-free reflector, identity plugboard). -/
theorem encrypt_letter_no_fixed_point (ro : RotorId × RotorId × RotorId)
    (p : Nat × Nat × Nat) (t : ReflectorId) (L C : Char) (p' : Nat × Nat × Nat)
    (hro : distinctRotors ro) (hp : validPositions p) (hL : L ∈ asciiUppercase)
    (h : encrypt_letter L ro p t = some (C, p')) : C ≠ L := by
  rw [encrypt_letter_eq ro p t L hL hp] at h
  simp only [Option.some.injEq, Prod.mk.injEq] at h
  obtain ⟨hC, -⟩ := h
  intro hCL
  have hLb := char_to_index_bounds L hL
  have hne := enigmaSub_ne ro (stepPositions ro.2.1 ro.2.2 p) t (char_to_index L)
    hLb.1 hLb.2
  apply hne
  have hb := enigmaSub_bounds ro (stepPositions ro.2.1 ro.2.2 p) t (char_to_index L)
  calc enigmaSub ro (stepPositions ro.2.1 ro.2.2 p) t (char_to_index L)
      = char_to_index (index_to_char (enigmaSub ro (stepPositions ro.2.1 ro.2.2 p) t
          (char_to_index L))) := (char_to_index_index_to_char _ hb.1 hb.2).symm
    _ = char_to_index C := by rw [hC]
    _ = char_to_index L := by rw [hCL]

/-- Witness for `encrypt_letter_no_fixed_point`: 'A' does not encrypt to 'A'
at rotors (I, II, III), positions (0, 0, 0), reflector B (it gives 'B'). -/
theorem encrypt_letter_no_fixed_point_witness : 'B' ≠ 'A' :=
  encrypt_letter_no_fixed_point (RotorId.I, RotorId.II, RotorId.III) (0, 0, 0)
    ReflectorId.B 'A' 'B' (0, 0, 1) (by decide) (by decide) (by decide) (by decide)

/-- C5: for every rotor in the catalog, every offset in `[0, 26)` and every
letter index in `[0, 26)`, the backward substitution applied to the result
of the forward substitution at the same offset returns the original letter. -/
theorem backward_inverts_forward (r : RotorId) (offset : Nat) (x : Int)
    (hoff : offset < 26) (h0 : 0 ≤ x) (h1 : x < 26) :
    backwardSub r offset (forwardSub r offset x) = x :=
  backwardSub_forwardSub r offset x h0 h1

/-- Witness for `backward_inverts_forward` at rotor I, offset 3, letter 5. -/
theorem backward_inverts_forward_witness :
    backwardSub RotorId.I 3 (forwardSub RotorId.I 3 5) = 5 :=
  backward_inverts_forward RotorId.I 3 5 (by decide) (by decide) (by decide)

/-- C10: a character outside the 26 uppercase letters fails the plugboard
dict lookup, and `encrypt_letter` on it returns no result at all (the
caller must handle non-alphabetic passthrough). -/
theorem encrypt_letter_non_alphabetic (c : Char) (ro : RotorId × RotorId × RotorId)
    (p : Nat × Nat × Nat) (t : ReflectorId)
    (hc : c ∉ asciiUppercase) (hp : validPositions p) :
    plugboard_map.lookup c = none ∧ encrypt_letter c ro p t = none := by
  have hpl : plugboard_map.lookup c = none := by
    unfold plugboard_map
    rw [lookup_map_self]
    exact if_neg hc
  refine ⟨hpl, ?_⟩
  obtain ⟨hp1, hp2, hp3⟩ := hp
  unfold encrypt_letter
  rw [ascii_get? _ hp2, ascii_get? _ hp3]
  simp only [hpl, Option.none_bind]

/-- Witness for `encrypt_letter_non_alphabetic` at the lowercase letter 'a'. -/
theorem encrypt_letter_non_alphabetic_witness :
    plugboard_map.lookup 'a' = none ∧
      encrypt_letter 'a' (RotorId.I, RotorId.II, RotorId.III) (0, 0, 0)
        ReflectorId.A = none :=
  encrypt_letter_non_alphabetic 'a' (RotorId.I, RotorId.II, RotorId.III) (0, 0, 0)
    ReflectorId.A (by decide) (by decide)

/-! ## The indicator mapping and the cycle loop -/

theorem cycleLoop_succ (fuel : Nat) (ro : RotorId × RotorId × RotorId)
    (sp : Nat × Nat × Nat) (t : ReflectorId) (start current : Char)
    (cycle : List Char) (seen : Finset Char) :
    cycleLoop (fuel + 1) ro sp t start current cycle seen =
      (indicator_mapping ro sp t current).bind fun out =>
        if out = start then some (cycle ++ [current] ++ [out], insert current seen)
        else cycleLoop fuel ro sp t start out (cycle ++ [current]) (insert current seen) := by
  conv_lhs => rw [cycleLoop]
  unfold indicator_mapping
  cases encrypt_letter current ro sp t with
  | none => rfl
  | some a1 =>
    dsimp only [Option.some_bind]
    cases encrypt_letter 'A' ro a1.2 t with
    | none => rfl
    | some a2 =>
      dsimp only [Option.some_bind]
      cases encrypt_letter 'A' ro a2.2 t with
      | none => rfl
      | some a3 =>
        dsimp only [Option.some_bind]
        cases encrypt_letter current ro a3.2 t with
        | none => rfl
        | some a4 => rfl

theorem indicator_mapping_eq (ro : RotorId × RotorId × RotorId)
    (sp : Nat × Nat × Nat) (t : ReflectorId) (L : Char)
    (hL : L ∈ asciiUppercase) (hp : validPositions sp) :
    indicator_mapping ro sp t L = some (indicatorFun ro sp t L) := by
  have hA : 'A' ∈ asciiUppercase := by decide
  have hp1 : validPositions (stepPositions ro.2.1 ro.2.2 sp) :=
    stepPositions_valid _ _ _ hp
  have hp2 : validPositions (stepPositions ro.2.1 ro.2.2
      (stepPositions ro.2.1 ro.2.2 sp)) := stepPositions_valid _ _ _ hp1
  have hp3 : validPositions (stepPositions ro.2.1 ro.2.2 (stepPositions ro.2.1 ro.2.2
      (stepPositions ro.2.1 ro.2.2 sp))) := stepPositions_valid _ _ _ hp2
  unfold indicator_mapping
  rw [encrypt_letter_eq ro sp t L hL hp]
  dsimp only [Option.some_bind]
  rw [encrypt_letter_eq ro _ t 'A' hA hp1]
  dsimp only [Option.some_bind]
  rw [encrypt_letter_eq ro _ t 'A' hA hp2]
  dsimp only [Option.some_bind]
  rw [encrypt_letter_eq ro _ t L hL hp3]
  dsimp only [Option.some_bind]
  rfl

theorem indicatorFun_mem (ro : RotorId × RotorId × RotorId) (sp : Nat × Nat × Nat)
    (t : ReflectorId) (c : Char) : indicatorFun ro sp t c ∈ asciiUppercase := by
  unfold indicatorFun
  exact index_to_char_mem_ascii _ (enigmaSub_bounds _ _ _ _).1 (enigmaSub_bounds _ _ _ _).2

theorem indicatorFun_invol (ro : RotorId × RotorId × RotorId) (sp : Nat × Nat × Nat)
    (t : ReflectorId) (c : Char) (hc : c ∈ asciiUppercase) :
    indicatorFun ro sp t (indicatorFun ro sp t c) = c := by
  unfold indicatorFun
  rw [char_to_index_index_to_char _ (enigmaSub_bounds _ _ _ _).1 (enigmaSub_bounds _ _ _ _).2,
    enigmaSub_invol _ _ _ _ (char_to_index_bounds c hc).1 (char_to_index_bounds c hc).2,
    index_to_char_char_to_index c hc]

theorem indicatorFun_ne (ro : RotorId × RotorId × RotorId) (sp : Nat × Nat × Nat)
    (t : ReflectorId) (c : Char) (hc : c ∈ asciiUppercase) :
    indicatorFun ro sp t c ≠ c := by
  unfold indicatorFun
  intro h
  have hb := enigmaSub_bounds ro (stepPositions ro.2.1 ro.2.2 (stepPositions ro.2.1 ro.2.2
    (stepPositions ro.2.1 ro.2.2 (stepPositions ro.2.1 ro.2.2 sp)))) t (char_to_index c)
  have hcb := char_to_index_bounds c hc
  apply enigmaSub_ne ro (stepPositions ro.2.1 ro.2.2 (stepPositions ro.2.1 ro.2.2
    (stepPositions ro.2.1 ro.2.2 (stepPositions ro.2.1 ro.2.2 sp)))) t
    (char_to_index c) hcb.1 hcb.2
  calc enigmaSub ro _ t (char_to_index c)
      = char_to_index (index_to_char (enigmaSub ro _ t (char_to_index c))) :=
        (char_to_index_index_to_char _ hb.1 hb.2).symm
    _ = char_to_index c := by rw [h]

theorem cycleLoop_pair (fuel : Nat) (ro : RotorId × RotorId × RotorId)
    (sp : Nat × Nat × Nat) (t : ReflectorId) (hp : validPositions sp)
    (a : Char) (ha : a ∈ asciiUppercase) (cycle : List Char) (seen : Finset Char) :
    cycleLoop (fuel + 2) ro sp t a a cycle seen =
      some (cycle ++ [a, indicatorFun ro sp t a, a],
        insert (indicatorFun ro sp t a) (insert a seen)) := by
  rw [show fuel + 2 = (fuel + 1) + 1 by omega, cycleLoop_succ,
    indicator_mapping_eq ro sp t a ha hp]
  dsimp only [Option.some_bind]
  rw [if_neg (indicatorFun_ne ro sp t a ha), cycleLoop_succ,
    indicator_mapping_eq ro sp t _ (indicatorFun_mem ro sp t a) hp]
  dsimp only [Option.some_bind]
  rw [indicatorFun_invol ro sp t a ha, if_pos rfl]
  simp [List.append_assoc]

theorem countP_snoc (cycles : List (List Char)) (cyc : List Char) (c : Char) :
    (cycles ++ [cyc]).countP (fun l => decide (c ∈ l)) =
      cycles.countP (fun l => decide (c ∈ l)) + (if c ∈ cyc then 1 else 0) := by
  rw [List.countP_append]
  by_cases h : c ∈ cyc <;> simp [List.countP_cons, h]

theorem gcs_aux_spec (fuel : Nat) (ro : RotorId × RotorId × RotorId)
    (sp : Nat × Nat × Nat) (t : ReflectorId) (hp : validPositions sp) :
    ∀ (letters : List Char) (cycles : List (List Char)) (seen : Finset Char),
    (∀ c ∈ letters, c ∈ asciiUppercase) →
    (∀ c ∈ seen, c ∈ asciiUppercase) →
    (∀ c ∈ seen, indicatorFun ro sp t c ∈ seen) →
    (∀ c ∈ asciiUppercase, c ∉ seen → c ∈ letters) →
    (∀ c ∈ seen, cycles.countP (fun cyc => decide (c ∈ cyc)) = 1) →
    (∀ c : Char, c ∉ seen → cycles.countP (fun cyc => decide (c ∈ cyc)) = 0) →
    (∀ cyc ∈ cycles, ∃ a, a ∈ asciiUppercase ∧ cyc = [a, indicatorFun ro sp t a, a]) →
    ((cycles.map (fun cyc => cyc.length - 1)).sum = seen.card) →
    ∃ result, get_cycle_structure_aux (fuel + 2) ro sp t letters cycles seen = some result ∧
      (∀ c ∈ asciiUppercase, result.countP (fun cyc => decide (c ∈ cyc)) = 1) ∧
      (∀ cyc ∈ result, ∃ a, a ∈ asciiUppercase ∧ cyc = [a, indicatorFun ro sp t a, a]) ∧
      ((result.map (fun cyc => cyc.length - 1)).sum = 26) := by
  intro letters
  induction letters with
  | nil =>
    intro cycles seen _ hsub _ hcover hocc1 _ hshape hsum
    refine ⟨cycles, rfl, ?_, hshape, ?_⟩
    · intro c hc
      refine hocc1 c ?_
      by_contra h
      exact absurd (hcover c hc h) (List.not_mem_nil c)
    · have hseen_eq : seen = asciiUppercase.toFinset := by
        apply Finset.ext
        intro c
        simp only [List.mem_toFinset]
        constructor
        · exact hsub c
        · intro hc
          by_contra h
          exact absurd (hcover c hc h) (List.not_mem_nil c)
      rw [hsum, hseen_eq]
      decide
  | cons letter rest ih =>
    intro cycles seen hl hsub hclosed hcover hocc1 hocc0 hshape hsum
    by_cases hmem : letter ∈ seen
    · have hskip : get_cycle_structure_aux (fuel + 2) ro sp t (letter :: rest) cycles seen
          = get_cycle_structure_aux (fuel + 2) ro sp t rest cycles seen := by
        conv_lhs => rw [get_cycle_structure_aux]
        rw [if_pos hmem]
      rw [hskip]
      refine ih cycles seen (fun c hc => hl c (List.mem_cons_of_mem _ hc)) hsub hclosed
        ?_ hocc1 hocc0 hshape hsum
      intro c hc hns
      rcases List.mem_cons.mp (hcover c hc hns) with h | h
      · exact absurd (h ▸ hmem) hns
      · exact h
    · have hlet : letter ∈ asciiUppercase := hl letter (List.mem_cons_self _ _)
      set b := indicatorFun ro sp t letter with hbdef
      have hbmem : b ∈ asciiUppercase := indicatorFun_mem ro sp t letter
      have hbinv : indicatorFun ro sp t b = letter := indicatorFun_invol ro sp t letter hlet
      have hbne : b ≠ letter := indicatorFun_ne ro sp t letter hlet
      have hbnot : b ∉ seen := by
        intro hbs
        have hfb := hclosed b hbs
        rw [hbinv] at hfb
        exact hmem hfb
      have hstep : get_cycle_structure_aux (fuel + 2) ro sp t (letter :: rest) cycles seen
          = get_cycle_structure_aux (fuel + 2) ro sp t rest
              (cycles ++ [[letter, b, letter]]) (insert b (insert letter seen)) := by
        conv_lhs => rw [get_cycle_structure_aux]
        rw [if_neg hmem, cycleLoop_pair fuel ro sp t hp letter hlet [] seen]
        dsimp only [Option.some_bind]
        rw [List.nil_append]
      rw [hstep]
      have hl' : ∀ c ∈ rest, c ∈ asciiUppercase :=
        fun c hc => hl c (List.mem_cons_of_mem _ hc)
      have hsub' : ∀ c ∈ insert b (insert letter seen), c ∈ asciiUppercase := by
        intro c hc
        rcases Finset.mem_insert.mp hc with h | hc
        · exact h ▸ hbmem
        rcases Finset.mem_insert.mp hc with h | hc
        · exact h ▸ hlet
        · exact hsub c hc
      have hclosed' : ∀ c ∈ insert b (insert letter seen),
          indicatorFun ro sp t c ∈ insert b (insert letter seen) := by
        intro c hc
        rcases Finset.mem_insert.mp hc with h | hc
        · subst h
          rw [hbinv]
          exact Finset.mem_insert_of_mem (Finset.mem_insert_self _ _)
        rcases Finset.mem_insert.mp hc with h | hc
        · subst h
          rw [← hbdef]
          exact Finset.mem_insert_self _ _
        · exact Finset.mem_insert_of_mem (Finset.mem_insert_of_mem (hclosed c hc))
      have hcover' : ∀ c ∈ asciiUppercase, c ∉ insert b (insert letter seen) → c ∈ rest := by
        intro c hc hns
        have hcs : c ∉ seen := fun h =>
          hns (Finset.mem_insert_of_mem (Finset.mem_insert_of_mem h))
        rcases List.mem_cons.mp (hcover c hc hcs) with h | h
        · exact absurd (h ▸ Finset.mem_insert_of_mem (Finset.mem_insert_self _ _) :
            c ∈ insert b (insert letter seen)) hns
        · exact h
      have hocc1' : ∀ c ∈ insert b (insert letter seen),
          (cycles ++ [[letter, b, letter]]).countP (fun cyc => decide (c ∈ cyc)) = 1 := by
        intro c hc
        rw [countP_snoc]
        rcases Finset.mem_insert.mp hc with h | hc2
        · rw [h, hocc0 b hbnot, if_pos (by simp)]
        rcases Finset.mem_insert.mp hc2 with h | hc3
        · rw [h, hocc0 letter hmem, if_pos (by simp)]
        · rw [hocc1 c hc3, if_neg ?_]
          intro hmem3
          rcases List.mem_cons.mp hmem3 with h | hmem4
          · exact hmem (h ▸ hc3)
          rcases List.mem_cons.mp hmem4 with h | hmem5
          · exact hbnot (h ▸ hc3)
          rcases List.mem_cons.mp hmem5 with h | hmem6
          · exact hmem (h ▸ hc3)
          · exact absurd hmem6 (List.not_mem_nil c)
      have hocc0' : ∀ c : Char, c ∉ insert b (insert letter seen) →
          (cycles ++ [[letter, b, letter]]).countP (fun cyc => decide (c ∈ cyc)) = 0 := by
        intro c hc
        have hcb : c ≠ b := fun h => hc (h ▸ Finset.mem_insert_self _ _)
        have hcl : c ≠ letter := fun h =>
          hc (h ▸ Finset.mem_insert_of_mem (Finset.mem_insert_self _ _))
        have hcs : c ∉ seen := fun h =>
          hc (Finset.mem_insert_of_mem (Finset.mem_insert_of_mem h))
        rw [countP_snoc, hocc0 c hcs, if_neg (by simp [hcb, hcl])]
      have hshape' : ∀ cyc ∈ cycles ++ [[letter, b, letter]],
          ∃ a, a ∈ asciiUppercase ∧ cyc = [a, indicatorFun ro sp t a, a] := by
        intro cyc hc
        rcases List.mem_append.mp hc with h | h
        · exact hshape cyc h
        · rcases List.mem_cons.mp h with h | h
          · exact ⟨letter, hlet, by rw [h, ← hbdef]⟩
          · exact absurd h (List.not_mem_nil cyc)
      have hsum' : (((cycles ++ [[letter, b, letter]]).map
            (fun cyc => cyc.length - 1)).sum = (insert b (insert letter seen)).card) := by
        rw [List.map_append, List.sum_append,
          Finset.card_insert_of_not_mem (by simp [hbne, hbnot]),
          Finset.card_insert_of_not_mem hmem, hsum]
        simp
      exact ih (cycles ++ [[letter, b, letter]]) (insert b (insert letter seen))
        hl' hsub' hclosed' hcover' hocc1' hocc0' hshape' hsum'

/-- C3: for every rotor order of distinct rotors, start positions in range
and reflector, `get_cycle_structure` terminates (with any fuel at least 2 for
its unbounded inner loop) and returns a partition of the alphabet: every
letter lies in exactly one cycle, every cycle is a closed loop whose first
and last elements coincide, and the cycle lengths minus the closing repeat
sum to 26. -/
theorem get_cycle_structure_partition (ro : RotorId × RotorId × RotorId)
    (sp : Nat × Nat × Nat) (t : ReflectorId) (fuel : Nat)
    (hro : distinctRotors ro) (hp : validPositions sp) (hfuel : 2 ≤ fuel) :
    ∃ cycles, get_cycle_structure fuel ro sp t = some cycles ∧
      (∀ c ∈ asciiUppercase, cycles.countP (fun cyc => decide (c ∈ cyc)) = 1) ∧
      (∀ cyc ∈ cycles, cyc ≠ [] ∧ cyc.head? = cyc.getLast?) ∧
      ((cycles.map (fun cyc => cyc.length - 1)).sum = 26) := by
  obtain ⟨k, rfl⟩ : ∃ k, fuel = k + 2 := ⟨fuel - 2, by omega⟩
  obtain ⟨result, heq, hcnt, hshape, hsum⟩ := gcs_aux_spec k ro sp t hp asciiUppercase [] ∅
    (fun c hc => hc) (by simp) (by simp) (fun c hc _ => hc)
    (by simp) (fun c _ => rfl) (by simp) (by simp)
  refine ⟨result, ?_, hcnt, ?_, hsum⟩
  · rw [get_cycle_structure]
    exact heq
  · intro cyc hcyc
    obtain ⟨a, ha, rfl⟩ := hshape cyc hcyc
    exact ⟨by simp, rfl⟩

/-- Witness for `get_cycle_structure_partition` at rotors (I, II, III),
start positions (0, 0, 0), reflector B, fuel 2. -/
theorem get_cycle_structure_partition_witness :
    ∃ cycles, get_cycle_structure 2 (RotorId.I, RotorId.II, RotorId.III) (0, 0, 0)
        ReflectorId.B = some cycles ∧
      (∀ c ∈ asciiUppercase, cycles.countP (fun cyc => decide (c ∈ cyc)) = 1) ∧
      (∀ cyc ∈ cycles, cyc ≠ [] ∧ cyc.head? = cyc.getLast?) ∧
      ((cycles.map (fun cyc => cyc.length - 1)).sum = 26) :=
  get_cycle_structure_partition (RotorId.I, RotorId.II, RotorId.III) (0, 0, 0)
    ReflectorId.B 2 (by decide) (by decide) (by decide)

/-- C4: each iteration of the `while` loop of `get_cycle_structure` computes
the image of the current letter by the indicator mapping: four presses that
always start from the fixed `start_positions` (press 1 the letter, presses 2
and 3 the dummy 'A' threading the advanced positions, press 4 the letter
again, whose output letter is the image and whose position state is
discarded); on an uppercase letter and valid start positions the mapping is
the total function `indicatorFun` of (rotor order, start positions,
reflector) alone. -/
theorem cycleLoop_indicator_mapping (fuel : Nat) (ro : RotorId × RotorId × RotorId)
    (sp : Nat × Nat × Nat) (t : ReflectorId) (start current : Char)
    (cycle : List Char) (seen : Finset Char) :
    (cycleLoop (fuel + 1) ro sp t start current cycle seen =
      (indicator_mapping ro sp t current).bind fun out =>
        if out = start then some (cycle ++ [current] ++ [out], insert current seen)
        else cycleLoop fuel ro sp t start out (cycle ++ [current]) (insert current seen)) ∧
    (current ∈ asciiUppercase → validPositions sp →
      indicator_mapping ro sp t current = some (indicatorFun ro sp t current)) :=
  ⟨cycleLoop_succ fuel ro sp t start current cycle seen,
    fun hc hp => indicator_mapping_eq ro sp t current hc hp⟩

/-- Witness for `cycleLoop_indicator_mapping` at rotors (I, II, III),
positions (0, 0, 0), reflector A, letter 'A'. -/
theorem cycleLoop_indicator_mapping_witness :
    indicator_mapping (RotorId.I, RotorId.II, RotorId.III) (0, 0, 0) ReflectorId.A 'A'
      = some (indicatorFun (RotorId.I, RotorId.II, RotorId.III) (0, 0, 0)
          ReflectorId.A 'A') :=
  (cycleLoop_indicator_mapping 1 (RotorId.I, RotorId.II, RotorId.III) (0, 0, 0)
    ReflectorId.A 'A' 'A' [] ∅).2 (by decide) (by decide)

/-- Modelled from the spec: the spec demands the reflector tables "be
reproduced exactly as historically published values" (two variants, A and B)
without listing them; these are the historically published Enigma I
reflector wirings UKW-A and UKW-B, given as the images of A..Z in order. -/
def historical_reflector : ReflectorId → List Char
  | .A => "EJMZALYXVBWFCRQUONTSPIKHGD".toList
  | .B => "YRUHQSLDPXNGOKMIEBFZCWVJAT".toList

/-- C6 counterexample: the embedded reflector table A maps 'N' to 'O',
whereas the historically published UKW-A maps 'N' to 'R'; table A therefore
does not reproduce the historically published constants. -/
theorem reflector_A_not_historical :
    (reflector_wiring ReflectorId.A).lookup 'N' = some 'O' ∧
    (historical_reflector ReflectorId.A).getD ('N'.toNat - 'A'.toNat) 'A' = 'R' ∧
    (reflector_wiring ReflectorId.A).lookup 'N' ≠
      some ((historical_reflector ReflectorId.A).getD ('N'.toNat - 'A'.toNat) 'A') := by
  decide

/-- C6 amended: both embedded reflector tables are total on the alphabet,
involutive (hence bijections) and fixed-point free; table B reproduces the
historically published UKW-B exactly, while table A pairs N-O (the published
UKW-A pairs N-R). -/
theorem reflector_tables_amended :
    (∀ t : ReflectorId, ∀ c ∈ asciiUppercase,
      ∃ d ∈ asciiUppercase, (reflector_wiring t).lookup c = some d) ∧
    (∀ t : ReflectorId, ∀ c ∈ asciiUppercase,
      (reflector_wiring t).lookup (((reflector_wiring t).lookup c).getD 'A') = some c) ∧
    (∀ t : ReflectorId, ∀ c ∈ asciiUppercase, (reflector_wiring t).lookup c ≠ some c) ∧
    (∀ t : ReflectorId, ∀ d ∈ asciiUppercase, ∃ c ∈ asciiUppercase,
      (reflector_wiring t).lookup c = some d) ∧
    (∀ c ∈ asciiUppercase, (reflector_wiring ReflectorId.B).lookup c =
      some ((historical_reflector ReflectorId.B).getD (c.toNat - 'A'.toNat) 'A')) ∧
    ((reflector_wiring ReflectorId.A).lookup 'N' = some 'O' ∧
      (historical_reflector ReflectorId.A).getD ('N'.toNat - 'A'.toNat) 'A' = 'R') := by
  decide

/-- Witness for `reflector_tables_amended` at table A and letter 'A'. -/
theorem reflector_tables_amended_witness :
    ∃ d ∈ asciiUppercase, (reflector_wiring ReflectorId.A).lookup 'A' = some d :=
  reflector_tables_amended.1 ReflectorId.A 'A' (by decide)

/-- C7 counterexample: `get_cycle_structure` itself performs no
duplicate-rotor check: called directly with the duplicate rotor order
(I, I, I) it computes and returns a complete cycle structure. -/
theorem get_cycle_structure_accepts_duplicates :
    (get_cycle_structure 2 (RotorId.I, RotorId.I, RotorId.I) (0, 0, 0)
      ReflectorId.A).isSome = true := by
  decide

/-- C7 amended: the duplicate-rotor-id check lives in the UI driver
`display_cycles`, which refuses (error message, modelled as `none`) before
any cycle computation; `get_cycle_structure` has no such check. -/
theorem display_cycles_rejects_duplicates (l m r : RotorId) (pl pm pr : Nat)
    (t : ReflectorId) (fuel : Nat) (h : l = m ∨ l = r ∨ m = r) :
    display_cycles l m r pl pm pr t fuel = none := by
  have hcard : ∀ a b c : RotorId, (a = b ∨ a = c ∨ b = c) →
      ({a, b, c} : Finset RotorId).card < 3 := by decide
  unfold display_cycles
  rw [if_pos (hcard l m r h)]

/-- Witness for `display_cycles_rejects_duplicates` with left = middle = I. -/
theorem display_cycles_rejects_duplicates_witness :
    display_cycles RotorId.I RotorId.I RotorId.III 0 0 0 ReflectorId.A 2 = none :=
  display_cycles_rejects_duplicates RotorId.I RotorId.I RotorId.III 0 0 0
    ReflectorId.A 2 (Or.inl rfl)
